import Mathlib

/-!
Verification of the allocation core in src/pkg/runtime/malloc.go (a Go
runtime memory allocator).  The development shallowly embeds the data
model and the operations of that file — size-class routing, the tiny
allocator, the per-thread-cache fast path, the GC bitmap writer, the
profiling sampler, and the allocation-triggered GC controller (gogc) —
and proves or refutes the specified properties about them.

Conventions of the embedding:
- the platform is fixed to 64 bit, so `ptrSize = 8`;
- machine words are modelled as `Nat` (with explicit wraparound where the
  source relies on it) and `Int` with explicit 32-bit wrapping for the
  `int32` arithmetic of the profiling sampler;
- heap memory is modelled word-granular as a function from byte addresses
  of word starts to word values;
- external collaborators (span refill, page allocation, the collection
  cycle itself, the random source) are parameters or oracle streams;
- fallible paths return `Except`.
-/

namespace Malloc

/-! ### Constants (malloc.go, const block lines 11-47) -/

def ptrSize : Nat := 8

def flagNoScan : Nat := 1

def flagNoZero : Nat := 2

def kindGCProg : Nat := 64

def kindNoPointers : Nat := 128

def maxTinySize : Nat := 16

def tinySizeClass : Nat := 2

def maxSmallSize : Nat := 32768

def pageShift : Nat := 13

def pageSize : Nat := 8192

def pageMask : Nat := pageSize - 1

def wordsPerBitmapWord : Nat := ptrSize * 8 / 4

def gcBits : Nat := 4

def bitsPerPointer : Nat := 2

def bitsMask : Nat := 1 <<< bitsPerPointer - 1

def pointersPerByte : Nat := 8 / bitsPerPointer

def bitPtrMask : Nat := bitsMask <<< 2

def maxGCMask : Nat := 0

def bitsDead : Nat := 0

def bitsPointer : Nat := 2

def bitBoundary : Nat := 1

def bitMarked : Nat := 2

def bitMask : Nat := bitBoundary ||| bitMarked

def debugMalloc : Bool := false

/-! ### Size-class table and routing (claim C5)

The routing code is malloc.go lines 149-155 (inside gomallocgc) and
goroundupsize, lines 349-360.  The tables `class_to_size`,
`size_to_class8` and `size_to_class128` are initialized by runtime
startup code that is outside src/. -/

/-- Modelled from the spec: the size-class table contents are initialized
outside this file (the runtime's size-class setup is not part of src/,
only its consumers are).  The spec fixes the table's invariants: object
sizes are monotonically non-decreasing in the class index, the classes
cover (0, 32 KiB], and every requested size maps to the smallest class
whose object size is at least the request.  The concrete values below are
the runtime's standard small-object size classes; entry c is the object
size of class c, and class 0 is the unused sentinel class of size 0. -/
def class_to_size : List Nat :=
  [0, 8, 16, 32, 48, 64, 80, 96, 112, 128, 144, 160, 176, 192, 208, 224,
   240, 256, 288, 320, 352, 384, 416, 448, 480, 512, 576, 640, 704, 768,
   896, 1024, 1152, 1280, 1408, 1536, 1792, 2048, 2304, 2688, 3072, 3200,
   3456, 4096, 4864, 5376, 6144, 6528, 6784, 6912, 8192, 9472, 9728,
   10240, 10880, 12288, 13568, 14336, 16384, 18432, 19072, 20480, 21760,
   24576, 27264, 28672, 32768]

/-- Index of the smallest size class whose object size is at least n. -/
def leastClass (n : Nat) : Nat :=
  List.findIdx (fun sz => n ≤ sz) class_to_size

/-- Modelled from the spec: lookup table built by the startup code so that
entry i holds the smallest class able to serve a request of 8*i bytes
(requests of at most 1024-8 bytes are looked up at index (size+7)/8). -/
def size_to_class8 : List Nat :=
  (List.range 129).map (fun i => leastClass (8 * i))

/-- Modelled from the spec: lookup table built by the startup code so that
entry j holds the smallest class able to serve a request of 1024+128*j
bytes (requests above 1024-8 bytes are looked up at index
(size-1024+127)/128). -/
def size_to_class128 : List Nat :=
  (List.range 249).map (fun j => leastClass (1024 + 128 * j))

/-- Size-class routing of gomallocgc (malloc.go lines 149-155).  In the
source the index expression size-1024+127 is uintptr arithmetic; for the
sizes that reach the second branch (size > 1024-8) the Go wraparound and
the Nat truncated subtraction both yield index 0 on 1017..1024 and agree
exactly from 1024 on, so plain Nat subtraction is faithful here. -/
def sizeToClass (size : Nat) : Nat :=
  if size ≤ 1024 - 8 then size_to_class8.getD ((size + 7) / 8) 0
  else size_to_class128.getD ((size - 1024 + 127) / 128) 0

/-- Rounded allocation size chosen by the small-object path of gomallocgc
(malloc.go line 155): the object size of the selected class. -/
def classRoundedSize (size : Nat) : Nat :=
  class_to_size.getD (sizeToClass size) 0

/-- goroundupsize (malloc.go lines 349-360).  The large branch rounds up
to a page multiple with (size+pageSize-1) &^ pageMask, written here in
division form (pageSize is a power of two); the uintptr overflow guard
size+pageSize < size is made explicit against 2^64. -/
def goroundupsize (size : Nat) : Nat :=
  if size < maxSmallSize then classRoundedSize size
  else if size + pageSize ≥ 2 ^ 64 then size
  else (size + pageSize - 1) / pageSize * pageSize

/-! ### Tiny allocator (claim C6)

The tiny path is malloc.go lines 104-147.  Fresh combining blocks come
from the class-2 free list of the shared size-class path; their addresses
are supplied here by an oracle `blocks` (the heap invariant that distinct
free objects occupy distinct memory becomes the pairwise-disjointness
hypothesis on the oracle). -/

/-- runtime.roundup(p, n) for a power-of-two n: round p up to a multiple
of n (source expression (p + n - 1) &^ (n - 1); the division form is equal
to it for powers of two). -/
def roundup (p n : Nat) : Nat := (p + n - 1) / n * n

/-- Cursor alignment of the tiny path (malloc.go lines 107-114): round the
cursor up by the 8/4/2/1-byte rules according to the size's low bits. -/
def tinyAlignCursor (size p : Nat) : Nat :=
  if size % 8 = 0 then roundup p 8
  else if size % 4 = 0 then roundup p 4
  else if size % 2 = 0 then roundup p 2
  else p

/-- State of one thread's tiny allocator: the current combining-block
cursor (c.tiny), the remaining free bytes (c.tinysize), and how many
fresh combining blocks have been taken from the size-class path so far. -/
structure TinyState where
  tiny : Nat
  tinysize : Nat
  blocksUsed : Nat
  deriving Repr, DecidableEq

/-- Fresh-block branch of the tiny path (malloc.go lines 126-147): take a
new maxTinySize block from the class-2 free list (the oracle supplies its
address), carve the first sub-object from it, and install it as the
current combining block exactly when it has more leftover space than the
old one.  Returns the sub-object address, a flag recording that the
shared size-class path was used, and the new state. -/
def tinyFresh (blocks : Nat → Nat) (st : TinyState) (size : Nat) :
    Nat × Bool × TinyState :=
  let x := blocks st.blocksUsed
  if maxTinySize - size > st.tinysize then
    (x, true, ⟨x + size, maxTinySize - size, st.blocksUsed + 1⟩)
  else
    (x, true, { st with blocksUsed := st.blocksUsed + 1 })

/-- Tiny-allocator request (malloc.go lines 104-147) for a pointer-free
request of size bytes (0 < size < maxTinySize): if the aligned request
fits the current combining block, carve it there and advance the cursor
(size1 = size plus the alignment gap); otherwise fall through to the
fresh-block branch. -/
def tinyAlloc (blocks : Nat → Nat) (st : TinyState) (size : Nat) :
    Nat × Bool × TinyState :=
  if size ≤ st.tinysize then
    let tiny := tinyAlignCursor size st.tiny
    let size1 := size + (tiny - st.tiny)
    if size1 ≤ st.tinysize then
      (tiny, false, ⟨tiny + size, st.tinysize - size1, st.blocksUsed⟩)
    else tinyFresh blocks st size
  else tinyFresh blocks st size

/-- Run a sequence of tiny requests, collecting the returned
(address, size) byte ranges. -/
def runTiny (blocks : Nat → Nat) (st : TinyState) :
    List Nat → List (Nat × Nat) × TinyState
  | [] => ([], st)
  | size :: rest =>
      let step := tinyAlloc blocks st size
      let tail := runTiny blocks step.2.2 rest
      ((step.1, size) :: tail.1, tail.2)

/-- The byte ranges [r.1, r.1+r.2) and [s.1, s.1+s.2) do not overlap. -/
def RangesDisjoint (r s : Nat × Nat) : Prop :=
  r.1 + r.2 ≤ s.1 ∨ s.1 + s.2 ≤ r.1

instance : ∀ r s, Decidable (RangesDisjoint r s) := fun r s => by
  unfold RangesDisjoint; infer_instance

/-- The byte range r is contained in the byte range s. -/
def RangeIn (r s : Nat × Nat) : Prop :=
  s.1 ≤ r.1 ∧ r.1 + r.2 ≤ s.1 + s.2

instance : ∀ r s, Decidable (RangeIn r s) := fun r s => by
  unfold RangeIn; infer_instance

/-- The range lies inside one of the first k oracle blocks. -/
def InBlocks (blocks : Nat → Nat) (k : Nat) (r : Nat × Nat) : Prop :=
  ∃ i < k, RangeIn r (blocks i, maxTinySize)

/-- The current combining-block remainder is either exhausted or lies
inside one of the blocks taken so far (runs started on a fresh thread
cache satisfy this with tinysize = 0). -/
def TinyRemainOk (blocks : Nat → Nat) (st : TinyState) : Prop :=
  st.tinysize = 0 ∨ InBlocks blocks st.blocksUsed (st.tiny, st.tinysize)

/-! ### Heap memory and the fast-path zero check (claim C4) -/

/-- Word-granular heap memory: a map from byte addresses of word starts
to word contents.  All word accesses made by the embedded code are at
8-byte-aligned addresses. -/
abbrev Mem : Type := Nat → Nat

/-- Write one word. -/
def writeWord (m : Mem) (a v : Nat) : Mem :=
  fun b => if b = a then v else m b

/-- runtime.memclr(x, size): clear the object's bytes; word-granular: it
zeroes every word whose start address lies in [x, x+size). -/
def memclr (m : Mem) (x size : Nat) : Mem :=
  fun a => if x ≤ a ∧ a < x + size then 0 else m a

/-- Zero step of the small-object fast path (malloc.go lines 168-173):
when zeroing is required (flagNoZero clear), the free-list link in the
object's first word is cleared (v.next = nil), and the object is
explicitly cleared with memclr only when its size exceeds two machine
words (size > 2*ptrSize) and its second word — the zeroed-free-list
sentinel — is non-zero.  Returns the updated memory and whether the
explicit memclr ran. -/
def smallPathZero (flags : Nat) (m : Mem) (x size : Nat) : Mem × Bool :=
  if flags &&& flagNoZero = 0 then
    let m1 := writeWord m x 0
    if size > 2 * ptrSize ∧ m1 (x + ptrSize) ≠ 0 then (memclr m1 x size, true)
    else (m1, false)
  else (m, false)

/-! ### Profiling sampler (claim C8) -/

/-- Two's-complement wrap of an integer into the int32 range. -/
def wrap32 (n : Int) : Int := (n + 2 ^ 31) % 2 ^ 32 - 2 ^ 31

/-- Next-interval computation of profilealloc (malloc.go lines 362-380),
reached when a profile sample is recorded: if size < rate, the rate is
first capped at 0x3fffffff so that 2*rate cannot overflow int32, a draw r
of fastrand2 (a uint32 value) is cast to int32 and reduced modulo 2*rate
with Go's truncated %, the remainder of the current allocation beyond the
previous counter (int32(size) - c.next_sample) is subtracted in int32
arithmetic, and a negative result is clamped to zero.  Returns the new
c.next_sample; when size >= rate the counter is left unchanged (only the
profile record is forwarded to the sink). -/
def profilealloc_next (rate size next_sample : Int) (r : Nat) : Int :=
  if size < rate then
    let rate1 := if rate > 0x3fffffff then 0x3fffffff else rate
    let next0 := Int.tmod (wrap32 r) (wrap32 (2 * wrap32 rate1))
    let next1 := wrap32 (next0 - wrap32 (wrap32 size - next_sample))
    if next1 < 0 then 0 else next1
  else next_sample

/-! ### GC metadata writer: the markallocated section of gomallocgc
(claim C7)

Lines 193-288 of malloc.go write the allocation's pointer layout into
the GC bitmap.  The bitmap is modelled at the granularity the code
manipulates: one 4-bit field per heap word, indexed by the word offset
off = (x - arena_start) / ptrSize.  The one-word branch ORs
(bitsPointer<<2) << shift into the bitmap word, touching only the field
at off; the byte stores of the other branches write the two fields of a
two-word granule (the byte at xbits + shift/8 holds fields off and
off+1; objects on those branches are at least two-word sized and
aligned). -/

/-- Per-type metadata consulted by the writer.  gc0 and gc1 mirror
typ.gc[0] and typ.gc[1]; mask carries the bytes of the pointer mask the
code reads through them — for a kindGCProg type the lazily unrolled
program's bytes behind the one-byte unroll flag (unrolled exactly once
by the external unrollgcprog_m), otherwise the inline mask embedded at
&typ.gc[0].  The mask bytes are immutable type metadata, so they live in
the type value rather than in mutable state. -/
structure GoType where
  size : Nat
  kind : Nat
  gc0 : Nat
  gc1 : Nat
  mask : List Nat

/-- Result of the metadata writer: the write is performed in the
returned bitmap, or delegated to the external unrollgcproginplace_m
collaborator — with maxGCMask = 0, every kindGCProg type with a
non-empty program (gc[1] != 0) takes that path (lines 212-230). -/
inductive MarkResult where
  | written (bm : Nat → Nat)
  | delegated

/-- One byte store into the bitmap at granule offset off: the low nibble
describes heap word off, the high nibble word off+1. -/
def writeGranule (bm : Nat → Nat) (off v : Nat) : Nat → Nat :=
  fun j => if j = off then v % 16 else if j = off + 1 then v / 16 else bm j

/-- The byte written by iteration k of the mask-copy loop (lines
258-279), for heap offset i = 2*ptrSize*k into an object of requested
size size0: the granule byte comes from the mask (the cursor ti cycles
with period te bytes) or is the conservative all-pointers pattern; the
boundary bit is set on the first granule only; when the requested size
ends one word into the granule (i + ptrSize = size0) the trailing
pointer bits are cleared (v &^= bitPtrMask << 4, i.e. v &&& 63). -/
def granuleByte (pm : Option (List Nat)) (te k size0 : Nat) : Nat :=
  let v := match pm with
    | none => (bitsPointer <<< 2) ||| (bitsPointer <<< 6)
    | some l => l.getD (k % te) 0
  let v := if k = 0 then v ||| bitBoundary else v
  if 2 * ptrSize * k + ptrSize = size0 then v &&& 63 else v

/-- The mask-copy loop (lines 258-279) followed by the dead-granule mark
for the rounding remainder (lines 280-287): granule k is written at
fields off + 2k for every k with 2*ptrSize*k < size0, and when the
requested size is granule-aligned and strictly below the rounded size,
the following granule is marked bitsDead. -/
def markTail (pm : Option (List Nat)) (te off size size0 : Nat)
    (bm : Nat → Nat) : Nat → Nat :=
  let bm1 := (List.range ((size0 + 2 * ptrSize - 1) / (2 * ptrSize))).foldl
    (fun b k => writeGranule b (off + 2 * k) (granuleByte pm te k size0)) bm
  if size0 % (2 * ptrSize) = 0 ∧ size0 < size then
    writeGranule bm1 (off + size0 / ptrSize) (bitsDead <<< 2)
  else bm1

/-- The branches of lines 252-287 taken when no pointer mask is
available: two-word objects get the inline all-pointers byte with the
boundary bit (line 254), larger ones the conservative loop. -/
def markNoMask (off size size0 : Nat) (bm : Nat → Nat) : MarkResult :=
  if size = 2 * ptrSize then
    .written (writeGranule bm off
      ((bitsPointer <<< 2) ||| (bitsPointer <<< 6) ||| bitBoundary))
  else .written (markTail none 1 off size size0 bm)

/-- markallocated: the bitmap-writing section of gomallocgc (lines
193-288) for an object at heap word offset off with rounded size,
requested size size0 and layout descriptor typ.  The debug recheck of
line 198 is compiled out (debugMalloc = false).  A one-word object is
marked "pointer" immediately (lines 205-209, before any use of typ).
With a type whose gc words are non-trivial and whose size exceeds one
word: a kindGCProg type with gc[1] != 0 is delegated to the in-place
unroller (masksize exceeds maxGCMask = 0), otherwise the unrolled or
embedded mask drives the two-word store (lines 241-245, with te as the
mask period in bytes, halved when the word count is even) or the copy
loop; without such a type the conservative branches run. -/
def markallocated (off size size0 : Nat) (typ : Option GoType)
    (bm : Nat → Nat) : MarkResult :=
  if size = ptrSize then
    .written (fun j => if j = off then bm off ||| (bitsPointer <<< 2)
      else bm j)
  else
    match typ with
    | some t =>
        if (t.gc0 ||| t.gc1) ≠ 0 ∧ t.size > ptrSize then
          if t.kind &&& kindGCProg ≠ 0 ∧ t.gc1 ≠ 0 then .delegated
          else
            if size = 2 * ptrSize then
              .written (writeGranule bm off (t.mask.getD 0 0 ||| bitBoundary))
            else
              let te0 := t.size / ptrSize
              let te := if te0 % 2 = 0 then te0 / 2 else te0
              .written (markTail (some t.mask) te off size size0 bm)
        else markNoMask off size size0 bm
    | none => markNoMask off size size0 bm

/-! ### gomallocgc: the allocation path and its reentrancy guard
(claim C9)

gomallocgc is malloc.go lines 58-314.  The model returns the result
address, the final state and a trace of events in program order; the
per-thread busy flag mp.mallocing lives in the state.  The race and
allocation-tracing hooks of lines 292-297 are elided: raceenabled is
false for this build and tracealloc only records to an external sink.
The gogc call at line 310 is modelled separately (see gogc above); here
the threshold test is the gcCheck event. -/

/-- Trace events of one gomallocgc call. -/
inductive AEv where
  | flagSet
  | cacheTouch
  | refillCall
  | largeCall
  | bitmapWrite
  | unrollInPlace
  | flagClear
  | profileHook
  | gcCheck
  deriving Repr, DecidableEq, BEq

/-- The per-thread cache (mcache): the tiny allocator's cursor and
remaining bytes, the per-size-class span free lists and reference
counts, the allocation counter and the profiling countdown. -/
structure MCache where
  tiny : Nat
  tinysize : Nat
  freelists : Nat → List Nat
  spanRefs : Nat → Nat
  local_cachealloc : Nat
  next_sample : Int

/-- State touched by gomallocgc: the calling thread's busy flag and
cache, word-granular heap memory, the GC bitmap (4-bit fields indexed by
heap word offset), the heap counters of the final threshold test, and
counters into the refill and large-allocation oracle streams. -/
structure MState where
  mallocing : Nat
  mcache : MCache
  mem : Mem
  bitmap : Nat → Nat
  heap_alloc : Nat
  next_gc : Nat
  refillCount : Nat
  largeCount : Nat

/-- External collaborators of gomallocgc: successive span refills (the
spec's refillSpan contract returns a span with a non-empty free list, so
each refill is a head address plus the remaining list), successive
large-span start addresses from the page allocator, the arena origin for
bitmap addressing, the profiling configuration, and the fastrand2
draw. -/
structure AEnv where
  refillList : Nat → Nat × List Nat
  largeAddr : Nat → Nat
  arenaStart : Nat
  memProfileRate : Int
  rand : Nat

/-- Address of the global zeroObject byte: all zero-sized allocations
return it (lines 49-50, 59-61). -/
def zeroObjectAddr : Nat := 0

/-- Pop the head of size class sc's free list, refilling it from the
shared heap first when it is empty (lines 127-136 and 156-165): the
refill replaces the span, then the head is unlinked and the span's
reference count incremented.  Returns the object, the new state and the
events. -/
def popFreelist (env : AEnv) (st : MState) (sc : Nat) :
    Nat × MState × List AEv :=
  match st.mcache.freelists sc with
  | v :: rest =>
      (v, { st with mcache := { st.mcache with
              freelists := fun k => if k = sc then rest
                else st.mcache.freelists k,
              spanRefs := fun k => if k = sc then st.mcache.spanRefs k + 1
                else st.mcache.spanRefs k } },
        [AEv.cacheTouch])
  | [] =>
      let p := env.refillList st.refillCount
      (p.1, { st with
          refillCount := st.refillCount + 1,
          mcache := { st.mcache with
              freelists := fun k => if k = sc then p.2
                else st.mcache.freelists k,
              spanRefs := fun k => if k = sc then st.mcache.spanRefs k + 1
                else st.mcache.spanRefs k } },
        [AEv.refillCall, AEv.cacheTouch])

/-- The tiny allocator's new-block branch inside gomallocgc (lines
126-147): take a fresh maxTinySize block from the class-2 free list,
zero its two words defensively, and install it as the current combining
block exactly when it leaves more free space than the old one. -/
def tinySlowPath (env : AEnv) (st : MState) (size0 : Nat) :
    Nat × MState × List AEv :=
  let p := popFreelist env st tinySizeClass
  let x := p.1
  let st1 := p.2.1
  let st2 := { st1 with
    mem := writeWord (writeWord st1.mem x 0) (x + ptrSize) 0 }
  let st3 :=
    if maxTinySize - size0 > st.mcache.tinysize then
      { st2 with mcache := { st2.mcache with
          tiny := x + size0, tinysize := maxTinySize - size0 } }
    else st2
  (x, st3, p.2.2)

/-- The bitmap step of gomallocgc (lines 186-288): skipped entirely for
noscan allocations; otherwise markallocated writes the layout, or the
write is delegated to the in-place unroller. -/
def markStep (env : AEnv) (x size size0 : Nat) (typ : Option GoType)
    (flags : Nat) (st : MState) : MState × List AEv :=
  if flags &&& flagNoScan ≠ 0 then (st, [])
  else
    match markallocated ((x - env.arenaStart) / ptrSize) size size0 typ
        st.bitmap with
    | .written bm => ({ st with bitmap := bm }, [AEv.bitmapWrite])
    | .delegated => (st, [AEv.unrollInPlace])

/-- The common exit of gomallocgc (lines 289-313): clear the busy flag,
run the profiling-sampler test (lines 299-305: either decrement the
countdown or record a sample through profilealloc), test the GC
threshold (lines 309-311; the gogc call itself is modelled separately),
and return the object. -/
def mallocEpilogue (env : AEnv) (x size : Nat) (st : MState)
    (tr : List AEv) : Except String (Nat × MState × List AEv) :=
  let st1 := { st with mallocing := 0 }
  let rate := env.memProfileRate
  let step2 : MState × List AEv :=
    if 0 < rate then
      if (size : Int) < rate ∧ wrap32 size < st1.mcache.next_sample then
        ({ st1 with mcache := { st1.mcache with
            next_sample :=
              wrap32 (st1.mcache.next_sample - wrap32 size) } },
          [AEv.cacheTouch])
      else
        ({ st1 with mcache := { st1.mcache with
            next_sample := profilealloc_next rate size
              st1.mcache.next_sample env.rand } },
          [AEv.cacheTouch, AEv.profileHook])
    else (st1, [])
  let tr2 := if step2.1.heap_alloc ≥ step2.1.next_gc then [AEv.gcCheck]
    else []
  .ok (x, step2.1, tr ++ AEv.flagClear :: (step2.2 ++ tr2))

/-- gomallocgc (malloc.go lines 58-314).  Zero-sized requests return the
shared zeroObject immediately; a set busy flag is the fatal reentrancy
check of lines 62-65; otherwise the flag is set, the request is served
by the tiny path (pointer-free and under 16 bytes: fast carve with an
early return at lines 117-123, or the new-block branch), the small
size-class path (free-list pop with the sentinel-guarded zeroing of
lines 168-173), or the large path (a page-aligned span from the heap,
size rounded to the page multiple the span provides), the GC metadata is
written while the flag is held, and the common exit clears the flag and
runs sampling and the threshold test. -/
def gomallocgc (env : AEnv) (size0 : Nat) (typ : Option GoType)
    (flags : Nat) (st0 : MState) :
    Except String (Nat × MState × List AEv) :=
  if size0 = 0 then .ok (zeroObjectAddr, st0, [])
  else if st0.mallocing ≠ 0 then .error "malloc/free - deadlock"
  else
    let st := { st0 with mallocing := 1 }
    if size0 ≤ maxSmallSize then
      if flags &&& flagNoScan ≠ 0 ∧ size0 < maxTinySize then
        if size0 ≤ st.mcache.tinysize ∧
            size0 + (tinyAlignCursor size0 st.mcache.tiny - st.mcache.tiny)
              ≤ st.mcache.tinysize then
          let tiny := tinyAlignCursor size0 st.mcache.tiny
          let size1 := size0 + (tiny - st.mcache.tiny)
          let st2 := { st with mcache := { st.mcache with
              tiny := tiny + size0,
              tinysize := st.mcache.tinysize - size1 } }
          .ok (tiny, { st2 with mallocing := 0 },
            [AEv.flagSet, AEv.cacheTouch, AEv.flagClear])
        else
          let r := tinySlowPath env st size0
          let st2 := { r.2.1 with mcache := { r.2.1.mcache with
              local_cachealloc :=
                r.2.1.mcache.local_cachealloc + maxTinySize } }
          mallocEpilogue env r.1 maxTinySize st2
            (AEv.flagSet :: AEv.cacheTouch :: (r.2.2 ++ [AEv.cacheTouch]))
      else
        let sc := sizeToClass size0
        let size := classRoundedSize size0
        let p := popFreelist env st sc
        let x := p.1
        let st2 := { p.2.1 with
          mem := (smallPathZero flags p.2.1.mem x size).1 }
        let st3 := { st2 with mcache := { st2.mcache with
            local_cachealloc := st2.mcache.local_cachealloc + size } }
        let m := markStep env x size size0 typ flags st3
        mallocEpilogue env x size m.1
          (AEv.flagSet :: (p.2.2 ++ AEv.cacheTouch :: m.2))
    else
      let x := env.largeAddr st.largeCount
      let size := (size0 + pageSize - 1) / pageSize * pageSize
      let st2 := { st with largeCount := st.largeCount + 1 }
      let m := markStep env x size size0 typ flags st2
      mallocEpilogue env x size m.1 (AEv.flagSet :: AEv.largeCall :: m.2)

/-- Concrete collaborator environment for witnesses: refills hand out a
span with free objects 96, 112, 128, large spans start at 40960, the
arena starts at 0, the profiling rate is the default 512 KiB, and the
random draw is 12345. -/
def sampleAEnv : AEnv :=
  ⟨fun _ => (96, [112, 128]), fun k => 40960 + 8192 * k, 0, 524288, 12345⟩

/-- A thread state whose busy flag is already set (reentrant entry). -/
def busyMState : MState :=
  ⟨1, ⟨0, 0, fun _ => [], fun _ => 0, 0, 1000⟩, fun _ => 0, fun _ => 1,
    0, 100, 0, 0⟩

/-- A quiescent thread state: flag clear, empty cache, boundary-only
bitmap, threshold not exceeded. -/
def freeMState : MState :=
  ⟨0, ⟨0, 0, fun _ => [], fun _ => 0, 0, 1000⟩, fun _ => 0, fun _ => 1,
    0, 100, 0, 0⟩

/-! ### Allocation-triggered GC controller: gogc (claims C1, C3, C10)

gogc is malloc.go lines 386-466; GC() (line 471-473) is gogc 2. -/

/-- Events emitted by one sequential run of gogc, in program order. -/
inductive GCEv where
  | semacquire
  | semrelease
  | stoptheworld
  | clearpools
  | gc_m (eager : Bool)
  | starttheworld
  deriving Repr, DecidableEq, BEq

/-- State read and written by gogc.  gcpercent carries the lazily
resolved configuration, with none as the gcpercentUnknown sentinel;
readgogcResult is the value the external goreadgogc() returns when the
sentinel is resolved under the heap lock (lines 404-410).  heap_alloc and
next_gc are the memstats counters of the recheck at line 417; gctrace is
the debug.gctrace toggle; locks is the calling thread's m.locks count at
entry and panicking the global panic flag. -/
structure GCState where
  enablegc : Nat
  locks : Nat
  panicking : Nat
  gcpercent : Option Int
  readgogcResult : Int
  heap_alloc : Nat
  next_gc : Nat
  gctrace : Nat
  deriving Repr, DecidableEq

/-- The gcpercent value after lazy resolution (lines 404-410): the
sentinel is replaced exactly once by goreadgogc()'s result. -/
def resolvedGCPercent (st : GCState) : Int :=
  st.gcpercent.getD st.readgogcResult

/-- gogc (malloc.go lines 386-466).  The calls to external collaborators
appear as events in the returned trace: semacquire/semrelease on
worldsema, stoptheworld, clearpools, gc_m — carrying the eagersweep flag,
set iff force >= 2 (lines 447-451) — and starttheworld, in program
order.  Modelled from the spec where the collaborator itself is outside
src/: the collection cycle's effect on the heap counters (threshold
recomputation) is the opaque parameter cycleEffect, applied once per gc_m
event.  acquirem/releasem bracket the body, so the mp.locks > 1 test of
line 395 sees the caller's lock count incremented by one; when
debug.gctrace > 1 the cycle runs twice (lines 437-453).  Returns the
event trace and the final state. -/
def gogc (cycleEffect : GCState → GCState) (force : Int) (st : GCState) :
    List GCEv × GCState :=
  if st.enablegc = 0 then ([], st)
  else if st.locks + 1 > 1 then ([], st)
  else if st.panicking ≠ 0 then ([], st)
  else
    let st1 := { st with gcpercent := some (resolvedGCPercent st) }
    if resolvedGCPercent st1 < 0 then ([], st1)
    else if force = 0 ∧ st1.heap_alloc < st1.next_gc then
      ([.semacquire, .semrelease], st1)
    else
      let n := if st1.gctrace > 1 then 2 else 1
      ([GCEv.semacquire, GCEv.stoptheworld, GCEv.clearpools] ++
          List.replicate n (GCEv.gc_m (decide (force ≥ 2))) ++
          [GCEv.semrelease, GCEv.starttheworld],
        cycleEffect^[n] st1)

/-- Concrete controller state with automatic triggering disabled
(gcpercent resolved to -1), collection enabled, no locks held, no panic,
and the threshold exceeded (heap_alloc 1000 >= next_gc 100). -/
def gcDisabledState : GCState :=
  ⟨1, 0, 0, some (-1), -1, 1000, 100, 0⟩

/-- Concrete controller state with gcpercent 100, collection enabled, no
locks held, no panic, threshold exceeded, default tracing. -/
def gcTriggeredState : GCState :=
  ⟨1, 0, 0, some 100, 100, 1000, 100, 0⟩

/-- Concrete controller state whose caller holds two locks. -/
def gcLockedState : GCState :=
  ⟨1, 2, 0, some 100, 100, 1000, 100, 0⟩

/-! ### The GC controller under concurrency (claim C2)

N threads that have each observed heap_alloc >= next_gc call gogc with
force = 0 and race for worldsema.  semacquire is external to src/ and is
a blocking semaphore acquire; the call-site comment at malloc.go lines
418-419 ("typically threads which lost the race to grab worldsema exit
here when gc is done") documents that losers wait until the winner's
release.  It is therefore modelled as a step enabled only while no
thread holds the semaphore.  The needgc flag abbreviates the recheck
condition heap_alloc >= next_gc of line 417; the collection step resets
it — modelled from the spec: the cycle's threshold recomputation makes
the threshold exceed the live bytes again, which is what lets the losers
exit at the recheck. -/

/-- Program counter of one thread inside gogc's semaphore region. -/
inductive TPC where
  | acquiring
  | rechecking
  | collecting
  | releasing
  | finished (ranCycle : Bool)
  deriving Repr, DecidableEq

/-- Configuration of the N-thread race. -/
structure Conf (N : Nat) where
  pcs : Fin N → TPC
  semaHeld : Bool
  needgc : Bool
  deriving DecidableEq

/-- Pointwise update of the pc map (a plain ite so that concrete
configurations evaluate). -/
def updatePC {N : Nat} (pcs : Fin N → TPC) (i : Fin N) (v : TPC) :
    Fin N → TPC :=
  fun j => if j = i then v else pcs j

/-- One atomic step of thread i: the blocking semacquire (line 415) is
enabled only when the semaphore is free; the recheck (lines 417-422)
releases and finishes without collecting when needgc is false — the
loser path; the collecting step performs the stop-the-world, pool
clearing and collection cycle (lines 424-453, resetting needgc) while
all other threads are parked in semacquire; the release step frees the
semaphore (line 457) and returns.  none means thread i cannot currently
step. -/
def stepThread {N : Nat} (c : Conf N) (i : Fin N) : Option (Conf N) :=
  match c.pcs i with
  | .acquiring =>
      if c.semaHeld then none
      else some { c with pcs := updatePC c.pcs i .rechecking,
                         semaHeld := true }
  | .rechecking =>
      if c.needgc then
        some { c with pcs := updatePC c.pcs i .collecting }
      else
        some { c with pcs := updatePC c.pcs i (.finished false),
                      semaHeld := false }
  | .collecting =>
      some { c with pcs := updatePC c.pcs i .releasing,
                    needgc := false }
  | .releasing =>
      some { c with pcs := updatePC c.pcs i (.finished true),
                    semaHeld := false }
  | .finished _ => none

/-- Interleaving semantics: some thread takes its next atomic step. -/
def Step {N : Nat} (c c2 : Conf N) : Prop :=
  ∃ i, stepThread c i = some c2

/-- Initial configuration: every thread has observed the exceeded
threshold and entered gogc's semaphore acquisition. -/
def initConf (N : Nat) : Conf N :=
  ⟨fun _ => .acquiring, false, true⟩

/-- Configurations reachable from the initial race. -/
def Reachable {N : Nat} (c : Conf N) : Prop :=
  Relation.ReflTransGen Step (initConf N) c

/-- All threads have returned from gogc. -/
def Terminal {N : Nat} (c : Conf N) : Prop :=
  ∀ i, ∃ b, c.pcs i = TPC.finished b

/-- The thread currently owns worldsema. -/
def HoldsSema (p : TPC) : Prop :=
  p = .rechecking ∨ p = .collecting ∨ p = .releasing

/-- The thread has passed the recheck: it will run, is running, or has
run the collection cycle. -/
def Committed (p : TPC) : Prop :=
  p = .collecting ∨ p = .releasing ∨ p = .finished true

/-- The thread's collection cycle has already executed. -/
def PostCycle (p : TPC) : Prop :=
  p = .releasing ∨ p = .finished true

/-- Inductive invariant of the race: the semaphore is held iff exactly
one thread is inside the gate; needgc has been reset iff some thread's
cycle has run; at most one thread ever passes the recheck; and a loser
can only have finished after the reset. -/
def ConfInv {N : Nat} (c : Conf N) : Prop :=
  ((c.semaHeld = true ↔ ∃ i, HoldsSema (c.pcs i)) ∧
    ∀ i j, HoldsSema (c.pcs i) → HoldsSema (c.pcs j) → i = j) ∧
  (c.needgc = false ↔ ∃ i, PostCycle (c.pcs i)) ∧
  (∀ i j, Committed (c.pcs i) → Committed (c.pcs j) → i = j) ∧
  ((∃ i, c.pcs i = TPC.finished false) → c.needgc = false)

/-- A reachable two-thread configuration in which thread 0 has won
worldsema and thread 1 is parked at the blocking semacquire. -/
def blockedConf : Conf 2 :=
  ⟨updatePC (initConf 2).pcs 0 .rechecking, true, true⟩

/-- Stations of a complete two-thread race in which thread 0 wins: after
thread 0's acquire, collect and release, thread 1 acquires, sees the
reset threshold condition and leaves without collecting.  raceC1 equals
blockedConf up to the shape of the pc map. -/
def raceC1 : Conf 2 :=
  ⟨updatePC (initConf 2).pcs 0 .rechecking, true, true⟩

def raceC2 : Conf 2 :=
  ⟨updatePC raceC1.pcs 0 .collecting, true, true⟩

def raceC3 : Conf 2 :=
  ⟨updatePC raceC2.pcs 0 .releasing, true, false⟩

def raceC4 : Conf 2 :=
  ⟨updatePC raceC3.pcs 0 (.finished true), false, false⟩

def raceC5 : Conf 2 :=
  ⟨updatePC raceC4.pcs 1 .rechecking, true, false⟩

def raceC6 : Conf 2 :=
  ⟨updatePC raceC5.pcs 1 (.finished false), false, false⟩

/-! ### Theorems -/

/-! #### Size-class table facts (claim C5) -/

theorem class_to_size_sorted : class_to_size.Sorted (· ≤ ·) := by decide

theorem class_to_size_top : (32768 : Nat) ∈ class_to_size := by decide

theorem class_to_size_mul8 :
    ∀ t ∈ class_to_size, t < 1024 → t % 8 = 0 := by decide

theorem class_to_size_mul128 :
    ∀ t ∈ class_to_size, 1024 ≤ t → t % 128 = 0 := by decide

theorem findIdx_congr {p q : Nat → Bool} :
    ∀ l : List Nat, (∀ x ∈ l, p x = q x) → l.findIdx p = l.findIdx q := by
  intro l
  induction l with
  | nil => intro _; rfl
  | cons a t ih =>
      intro h
      have ha : p a = q a := h a (by simp)
      simp only [List.findIdx_cons, ha, ih fun x hx => h x (by simp [hx])]

theorem leastClass_lt_length (n : Nat) (h : n ≤ 32768) :
    leastClass n < class_to_size.length :=
  List.findIdx_lt_length_of_exists ⟨32768, class_to_size_top, by simpa using h⟩

theorem leastClass_le (n : Nat) (h : n ≤ 32768) :
    n ≤ class_to_size.getD (leastClass n) 0 := by
  have hlt := leastClass_lt_length n h
  have := @List.findIdx_getElem _ (fun sz => n ≤ sz) class_to_size hlt
  rw [List.getD_eq_getElem?_getD, List.getElem?_eq_getElem hlt]
  simpa using this

theorem leastClass_min (n : Nat) (h : n ≤ 32768) :
    ∀ t ∈ class_to_size, n ≤ t → class_to_size.getD (leastClass n) 0 ≤ t := by
  intro t ht hnt
  obtain ⟨k, hk, rfl⟩ := List.mem_iff_getElem.mp ht
  have hlt := leastClass_lt_length n h
  rcases Nat.lt_or_ge k (leastClass n) with hkl | hkl
  · have := @List.not_of_lt_findIdx _ (fun sz => n ≤ sz) class_to_size k hkl
    simp only [decide_eq_false_iff_not, not_le] at this
    omega
  · rw [List.getD_eq_getElem?_getD, List.getElem?_eq_getElem hlt]
    simpa using
      class_to_size_sorted.rel_get_of_le (a := ⟨leastClass n, hlt⟩) (b := ⟨k, hk⟩) hkl

theorem leastClass_mem (n : Nat) (h : n ≤ 32768) :
    class_to_size.getD (leastClass n) 0 ∈ class_to_size := by
  have hlt := leastClass_lt_length n h
  rw [List.getD_eq_getElem?_getD, List.getElem?_eq_getElem hlt]
  exact List.getElem_mem hlt

theorem leastClass_round8 (S : Nat) (h1 : 0 < S) (h2 : S ≤ 1016) :
    leastClass (8 * ((S + 7) / 8)) = leastClass S := by
  apply findIdx_congr
  intro t ht
  simp only [decide_eq_decide]
  rcases Nat.lt_or_ge t 1024 with hc | hc
  · have h8 := class_to_size_mul8 t ht hc
    omega
  · omega

theorem leastClass_round128 (S : Nat) (h1 : 1016 < S) (h2 : S ≤ 32768) :
    leastClass (1024 + 128 * ((S - 1024 + 127) / 128)) = leastClass S := by
  apply findIdx_congr
  intro t ht
  simp only [decide_eq_decide]
  rcases Nat.lt_or_ge t 1024 with hc | hc
  · have h8 := class_to_size_mul8 t ht hc
    omega
  · have h128 := class_to_size_mul128 t ht hc
    omega

theorem size_to_class8_getD (i : Nat) (h : i < 129) :
    size_to_class8.getD i 0 = leastClass (8 * i) := by
  simp [size_to_class8, List.getD_eq_getElem?_getD, List.getElem?_map,
    List.getElem?_range h]

theorem size_to_class128_getD (j : Nat) (h : j < 249) :
    size_to_class128.getD j 0 = leastClass (1024 + 128 * j) := by
  simp [size_to_class128, List.getD_eq_getElem?_getD, List.getElem?_map,
    List.getElem?_range h]

theorem sizeToClass_eq_leastClass (S : Nat) (h1 : 0 < S) (h2 : S ≤ 32768) :
    sizeToClass S = leastClass S := by
  unfold sizeToClass
  by_cases hs : S ≤ 1024 - 8
  · rw [if_pos hs, size_to_class8_getD _ (by omega),
      leastClass_round8 S h1 (by omega)]
  · rw [if_neg hs, size_to_class128_getD _ (by omega),
      leastClass_round128 S (by omega) h2]

/-! #### Fast-path zero check (claim C4) -/

/-- C4 is refuted as stated: at the concrete reachable instance x = 0,
rounded size 16 (exactly two machine words, size class 2), zeroing
required (flags = 0) and second word reading 5 ≠ 0, the claim's
condition "larger than one machine word and second word non-zero" holds,
yet the code performs no explicit clear (its guard is size > 2*ptrSize)
and the object's second word still reads 5 afterwards — the object is
returned without being zeroed. -/
theorem c4_one_word_threshold_counterexample :
    ptrSize < 16 ∧ (fun _ : Nat => 5) (0 + ptrSize) ≠ 0 ∧
    (smallPathZero 0 (fun _ => 5) 0 16).2 = false ∧
    (smallPathZero 0 (fun _ => 5) 0 16).1 (0 + ptrSize) = 5 := by
  refine ⟨by decide, by decide, by decide, by decide⟩

/-- C4 (amended): on the per-thread-cache fast path with zeroing required
(flagNoZero not set), the explicit clear runs iff the object is larger
than two machine words and its second word — the zeroed-free-list
sentinel — is non-zero; when it runs, every word of the object is zero
afterwards; when it does not run, no word except the first (the free-list
link, overwritten with nil) is changed, so objects whose second word
reads zero are returned without an explicit clear. -/
theorem c4_fastpath_zero_sentinel (flags : Nat) (m : Mem) (x size : Nat)
    (hz : flags &&& flagNoZero = 0) :
    ((smallPathZero flags m x size).2 = true ↔
      2 * ptrSize < size ∧ m (x + ptrSize) ≠ 0) ∧
    ((smallPathZero flags m x size).2 = true →
      ∀ a, x ≤ a → a < x + size → (smallPathZero flags m x size).1 a = 0) ∧
    ((smallPathZero flags m x size).2 = false →
      ∀ a, a ≠ x → (smallPathZero flags m x size).1 a = m a) := by
  unfold smallPathZero
  rw [if_pos hz]
  dsimp only
  have hx : writeWord m x 0 (x + ptrSize) = m (x + ptrSize) := by
    unfold writeWord
    simp [ptrSize]
  split_ifs with h
  · refine ⟨⟨fun _ => by rw [hx] at h; omega, fun _ => rfl⟩, ?_, by simp⟩
    intro _ a ha1 ha2
    unfold memclr
    simp [ha1, ha2]
  · rw [hx] at h
    refine ⟨⟨fun hf => by simp at hf, fun hc => absurd (by omega) h⟩, by simp, ?_⟩
    intro _ a hax
    unfold writeWord
    simp [hax]

/-- Witness for the amended C4: with all of memory reading 7, a 32-byte
object at 0 gets the explicit clear (second word 7 ≠ 0 and 32 > 16), and
its second word is zero afterwards. -/
theorem c4_fastpath_zero_sentinel_witness :
    (smallPathZero 0 (fun _ => 7) 0 32).2 = true ∧
    (smallPathZero 0 (fun _ => 7) 0 32).1 8 = 0 := by
  have h := c4_fastpath_zero_sentinel 0 (fun _ => 7) 0 32 (by decide)
  have ht : (smallPathZero 0 (fun _ => 7) 0 32).2 = true :=
    h.1.mpr (by decide)
  exact ⟨ht, h.2.1 ht 8 (by decide) (by decide)⟩

/-! #### Profiling sampler (claim C8) -/

theorem wrap32_eq_self (n : Int) (h1 : -(2 ^ 31) ≤ n) (h2 : n < 2 ^ 31) :
    wrap32 n = n := by
  unfold wrap32
  omega

/-- C8: when a sample is recorded for an allocation of size S below the
sampling rate R, the next per-thread sample interval equals
max(0, U - (S - previousRemainingCounter)), where U is the value the code
draws: the fastrand2 draw reduced into [0, 2*min(R, 0x3fffffff)) ⊆
[0, 2R).  Stated for every draw r of the 31-bit random source and with
the no-overflow side conditions the runtime counters satisfy; uniformity
of the distribution of U itself is a statistical property outside the
embedding. -/
theorem c8_sampler_next_interval (rate size next_sample : Int) (r : Nat)
    (hrate : 0 < rate) (hsr : size < rate) (hs0 : 0 ≤ size)
    (hs31 : size < 2 ^ 31) (hns0 : 0 ≤ next_sample)
    (hr31 : (r : Int) < 2 ^ 31)
    (hnof : (r : Int) % (2 * min rate 0x3fffffff) + next_sample <
      2 ^ 31 + size) :
    profilealloc_next rate size next_sample r =
      max 0 ((r : Int) % (2 * min rate 0x3fffffff) - (size - next_sample)) ∧
    0 ≤ (r : Int) % (2 * min rate 0x3fffffff) ∧
    (r : Int) % (2 * min rate 0x3fffffff) < 2 * rate := by
  have hr0 : (0 : Int) ≤ (r : Int) := Int.ofNat_nonneg r
  set rc : Int := min rate 0x3fffffff with hrc
  have hU0 : 0 ≤ (r : Int) % (2 * rc) := Int.emod_nonneg _ (by omega)
  have hU2 : (r : Int) % (2 * rc) < 2 * rc := Int.emod_lt_of_pos _ (by omega)
  unfold profilealloc_next
  rw [if_pos hsr]
  have hrc1 : (if rate > 0x3fffffff then (0x3fffffff : Int) else rate) = rc := by
    rw [hrc]
    split <;> omega
  dsimp only
  rw [hrc1]
  have hw_rc : wrap32 rc = rc := wrap32_eq_self _ (by omega) (by omega)
  rw [hw_rc]
  have hw_2rc : wrap32 (2 * rc) = 2 * rc := wrap32_eq_self _ (by omega) (by omega)
  have hw_r : wrap32 (r : Int) = r := wrap32_eq_self _ (by omega) (by omega)
  rw [hw_2rc, hw_r, Int.tmod_eq_emod hr0 (by omega)]
  have hw_s : wrap32 size = size := wrap32_eq_self _ (by omega) (by omega)
  rw [hw_s]
  have hw_in : wrap32 (size - next_sample) = size - next_sample :=
    wrap32_eq_self _ (by omega) (by omega)
  rw [hw_in]
  have hw_out : wrap32 ((r : Int) % (2 * rc) - (size - next_sample)) =
      (r : Int) % (2 * rc) - (size - next_sample) :=
    wrap32_eq_self _ (by omega) (by omega)
  rw [hw_out]
  refine ⟨?_, hU0, by omega⟩
  split_ifs with hneg <;> omega

/-- Witness for C8 at the runtime's default rate 512 KiB, an allocation
of 4096 bytes, a previous counter of 1000 and the draw 300000. -/
theorem c8_sampler_next_interval_witness :
    profilealloc_next 524288 4096 1000 300000 =
      max 0 (((300000 : Nat) : Int) % (2 * min 524288 0x3fffffff) -
        (4096 - 1000)) ∧
    0 ≤ ((300000 : Nat) : Int) % (2 * min 524288 0x3fffffff) ∧
    ((300000 : Nat) : Int) % (2 * min 524288 0x3fffffff) < 2 * 524288 :=
  c8_sampler_next_interval 524288 4096 1000 300000 (by decide) (by decide)
    (by decide) (by decide) (by decide) (by decide) (by decide)

/-! #### Tiny allocator (claim C6) -/

theorem tinyAlignCursor_ge (size p : Nat) : p ≤ tinyAlignCursor size p := by
  unfold tinyAlignCursor roundup
  split
  · omega
  · split
    · omega
    · split
      · omega
      · omega

theorem rangeIn_refl (r : Nat × Nat) : RangeIn r r := ⟨Nat.le_refl _, Nat.le_refl _⟩

theorem rangesDisjoint_mono {r R s S : Nat × Nat} (hr : RangeIn r R)
    (hs : RangeIn s S) (h : RangesDisjoint R S) : RangesDisjoint r s := by
  unfold RangeIn RangesDisjoint at *
  omega

theorem tinyAlloc_step (blocks : Nat → Nat)
    (hB : ∀ i j, i ≠ j →
      RangesDisjoint (blocks i, maxTinySize) (blocks j, maxTinySize))
    (st : TinyState) (size : Nat) (h0 : 0 < size) (h16 : size < maxTinySize)
    (hR : TinyRemainOk blocks st) :
    st.blocksUsed ≤ (tinyAlloc blocks st size).2.2.blocksUsed ∧
    ((∃ i, st.blocksUsed ≤ i ∧ i < (tinyAlloc blocks st size).2.2.blocksUsed ∧
        RangeIn ((tinyAlloc blocks st size).1, size) (blocks i, maxTinySize)) ∨
      (st.tinysize ≠ 0 ∧
        RangeIn ((tinyAlloc blocks st size).1, size) (st.tiny, st.tinysize))) ∧
    ((tinyAlloc blocks st size).2.2.tinysize = 0 ∨
      RangesDisjoint ((tinyAlloc blocks st size).1, size)
        ((tinyAlloc blocks st size).2.2.tiny,
          (tinyAlloc blocks st size).2.2.tinysize)) ∧
    ((tinyAlloc blocks st size).2.2.tinysize ≠ 0 →
      (st.tinysize ≠ 0 ∧
        RangeIn ((tinyAlloc blocks st size).2.2.tiny,
          (tinyAlloc blocks st size).2.2.tinysize) (st.tiny, st.tinysize)) ∨
      (∃ i, st.blocksUsed ≤ i ∧ i < (tinyAlloc blocks st size).2.2.blocksUsed ∧
        RangeIn ((tinyAlloc blocks st size).2.2.tiny,
          (tinyAlloc blocks st size).2.2.tinysize) (blocks i, maxTinySize))) := by
  have hal := tinyAlignCursor_ge size st.tiny
  rcases hR with hR0 | ⟨j, hj, hjin⟩ <;>
    [skip; (simp only [RangeIn, maxTinySize] at hjin)] <;>
  · simp only [tinyAlloc, tinyFresh, maxTinySize] at *
    split_ifs with h1 h2 h3 h4 <;> simp only at * <;>
      [(refine ⟨by omega, Or.inr (by simp only [RangeIn]; omega),
          Or.inr (by simp only [RangesDisjoint]; omega),
          fun hne => Or.inl (by simp only [RangeIn]; omega)⟩);
       (refine ⟨by omega, Or.inl ⟨st.blocksUsed, by simp only [RangeIn]; omega⟩,
          Or.inr (by simp only [RangesDisjoint]; omega),
          fun hne => Or.inr ⟨st.blocksUsed, by simp only [RangeIn]; omega⟩⟩);
       (refine ⟨by omega, Or.inl ⟨st.blocksUsed, by simp only [RangeIn]; omega⟩, ?_, ?_⟩);
       (refine ⟨by omega, Or.inl ⟨st.blocksUsed, by simp only [RangeIn]; omega⟩,
          Or.inr (by simp only [RangesDisjoint]; omega),
          fun hne => Or.inr ⟨st.blocksUsed, by simp only [RangeIn]; omega⟩⟩);
       (refine ⟨by omega, Or.inl ⟨st.blocksUsed, by simp only [RangeIn]; omega⟩, ?_, ?_⟩)] <;>
    first
      | (exact Or.inl (by omega))
      | (intro hne; exact absurd (by omega) hne)
      | (refine Or.inr ?_
         have hd := hB st.blocksUsed j (by omega)
         simp only [RangesDisjoint, maxTinySize] at hd ⊢
         omega)
      | (intro hne
         exact Or.inl ⟨by omega, by simp only [RangeIn]; omega⟩)

theorem rangeIn_trans {a b c : Nat × Nat} (h1 : RangeIn a b) (h2 : RangeIn b c) :
    RangeIn a c := by
  unfold RangeIn at *
  omega

theorem runTiny_aux (blocks : Nat → Nat)
    (hB : ∀ i j, i ≠ j →
      RangesDisjoint (blocks i, maxTinySize) (blocks j, maxTinySize)) :
    ∀ (sizes : List Nat) (st : TinyState),
      (∀ s ∈ sizes, 0 < s ∧ s < maxTinySize) → TinyRemainOk blocks st →
      (runTiny blocks st sizes).1.Pairwise RangesDisjoint ∧
      TinyRemainOk blocks (runTiny blocks st sizes).2 ∧
      st.blocksUsed ≤ (runTiny blocks st sizes).2.blocksUsed ∧
      ∀ r ∈ (runTiny blocks st sizes).1,
        (∃ i, st.blocksUsed ≤ i ∧ i < (runTiny blocks st sizes).2.blocksUsed ∧
            RangeIn r (blocks i, maxTinySize)) ∨
        (st.tinysize ≠ 0 ∧ RangeIn r (st.tiny, st.tinysize)) := by
  intro sizes
  induction sizes with
  | nil =>
      intro st hs hR
      exact ⟨List.Pairwise.nil, hR, Nat.le_refl _, by simp [runTiny]⟩
  | cons size rest ih =>
      intro st hs hR
      obtain ⟨h0, h16⟩ := hs size (by simp)
      obtain ⟨hku, hret, hdisj, hrem⟩ := tinyAlloc_step blocks hB st size h0 h16 hR
      have hR1 : TinyRemainOk blocks (tinyAlloc blocks st size).2.2 := by
        rcases Nat.eq_zero_or_pos (tinyAlloc blocks st size).2.2.tinysize with hz | hp
        · exact Or.inl hz
        · rcases hrem (by omega) with ⟨hne, hin⟩ | ⟨i, hi1, hi2, hin⟩
          · rcases hR with h | ⟨j, hj, hjin⟩
            · exact absurd h hne
            · exact Or.inr ⟨j, by omega, rangeIn_trans hin hjin⟩
          · exact Or.inr ⟨i, hi2, hin⟩
      obtain ⟨hP, hR2, hku2, hall⟩ :=
        ih (tinyAlloc blocks st size).2.2 (fun s hsm => hs s (by simp [hsm])) hR1
      have hxblk : ∃ m, m < (tinyAlloc blocks st size).2.2.blocksUsed ∧
          RangeIn ((tinyAlloc blocks st size).1, size) (blocks m, maxTinySize) := by
        rcases hret with ⟨m, hm1, hm2, hmin⟩ | ⟨hne, hin⟩
        · exact ⟨m, hm2, hmin⟩
        · rcases hR with h | ⟨j, hj, hjin⟩
          · exact absurd h hne
          · exact ⟨j, by omega, rangeIn_trans hin hjin⟩
      simp only [runTiny]
      refine ⟨List.Pairwise.cons ?_ hP, hR2, by omega, ?_⟩
      · intro r hr
        rcases hall r hr with ⟨i, hi1, hi2, hin⟩ | ⟨hne, hin⟩
        · obtain ⟨m, hm, hmin⟩ := hxblk
          exact rangesDisjoint_mono hmin hin (hB m i (by omega))
        · rcases hdisj with hz | hd
          · exact absurd hz hne
          · exact rangesDisjoint_mono (rangeIn_refl _) hin hd
      · intro r hr
        rcases List.mem_cons.mp hr with rfl | hmem
        · rcases hret with ⟨m, hm1, hm2, hmin⟩ | ⟨hne, hin⟩
          · exact Or.inl ⟨m, hm1, by omega, hmin⟩
          · exact Or.inr ⟨hne, hin⟩
        · rcases hall r hmem with ⟨i, hi1, hi2, hin⟩ | ⟨hne, hin⟩
          · exact Or.inl ⟨i, by omega, hi2, hin⟩
          · rcases hrem (by omega) with ⟨hne2, hin2⟩ | ⟨m, hm1, hm2, hmin⟩
            · exact Or.inr ⟨hne2, rangeIn_trans hin hin2⟩
            · exact Or.inl ⟨m, hm1, by omega, rangeIn_trans hin hmin⟩

/-- C6: the tiny allocator never returns overlapping byte ranges.  Part
one: for every sequence of pointer-free tiny requests (each of size in
(0, 16)) served by one thread's tiny allocator starting on a fresh
thread cache, with the fresh combining blocks supplied by the size-class
path pairwise disjoint, the returned (address, size) byte ranges are
pairwise non-overlapping.  Part two: a request whose aligned offset plus
size still fits the current combining block is carved from that same
block — the returned range lies inside the current block remainder — and
does not touch the shared heap (no fresh block is taken and the
fresh-block flag is false). -/
theorem c6_tiny_ranges_disjoint_and_packed :
    (∀ (blocks : Nat → Nat) (sizes : List Nat),
        (∀ i j, i ≠ j →
          RangesDisjoint (blocks i, maxTinySize) (blocks j, maxTinySize)) →
        (∀ s ∈ sizes, 0 < s ∧ s < maxTinySize) →
        (runTiny blocks ⟨0, 0, 0⟩ sizes).1.Pairwise RangesDisjoint) ∧
    (∀ (blocks : Nat → Nat) (st : TinyState) (size : Nat), 0 < size →
        size + (tinyAlignCursor size st.tiny - st.tiny) ≤ st.tinysize →
        (tinyAlloc blocks st size).2.1 = false ∧
        (tinyAlloc blocks st size).2.2.blocksUsed = st.blocksUsed ∧
        st.tiny ≤ (tinyAlloc blocks st size).1 ∧
        (tinyAlloc blocks st size).1 + size ≤ st.tiny + st.tinysize) := by
  constructor
  · intro blocks sizes hB hs
    exact (runTiny_aux blocks hB sizes ⟨0, 0, 0⟩ hs (Or.inl rfl)).1
  · intro blocks st size h0 hfit
    have hal := tinyAlignCursor_ge size st.tiny
    simp only [tinyAlloc]
    rw [if_pos (by omega), if_pos hfit]
    exact ⟨rfl, rfl, hal, by omega⟩

/-- Witness for C6: the spec's example sequence of sizes 3, 5, 8 on a
fresh thread cache with fresh blocks at 32, 48, 64, ... returns pairwise
disjoint ranges (concretely 32, 35 and 40, the first two packed into the
block at 32), and the concrete mid-block state (cursor 35, 13 bytes left)
serves a 5-byte request from the same block without a fresh block. -/
theorem c6_tiny_ranges_disjoint_and_packed_witness :
    (runTiny (fun k => 32 + 16 * k) ⟨0, 0, 0⟩ [3, 5, 8]).1.Pairwise
      RangesDisjoint ∧
    ((tinyAlloc (fun k => 32 + 16 * k) ⟨35, 13, 1⟩ 5).2.1 = false ∧
      (tinyAlloc (fun k => 32 + 16 * k) ⟨35, 13, 1⟩ 5).2.2.blocksUsed = 1 ∧
      35 ≤ (tinyAlloc (fun k => 32 + 16 * k) ⟨35, 13, 1⟩ 5).1 ∧
      (tinyAlloc (fun k => 32 + 16 * k) ⟨35, 13, 1⟩ 5).1 + 5 ≤ 35 + 13) :=
  ⟨c6_tiny_ranges_disjoint_and_packed.1 (fun k => 32 + 16 * k) [3, 5, 8]
      (fun i j h => by simp only [RangesDisjoint, maxTinySize]; omega)
      (by decide),
    c6_tiny_ranges_disjoint_and_packed.2 (fun k => 32 + 16 * k) ⟨35, 13, 1⟩ 5
      (by decide) (by decide)⟩

/-- C5: for every size S with 0 < S ≤ 32 KiB, the size-class routing of
gomallocgc selects a class whose object size is at least S, and that
object size is the minimum table entry with that property.  Determinism
of repeated calls is inherent: the routing is a pure function of S over
read-only tables, so the same S always yields the same class and rounded
size. -/
theorem c5_sizeclass_routing_minimal (S : Nat) (h1 : 0 < S)
    (h2 : S ≤ maxSmallSize) :
    S ≤ classRoundedSize S ∧ classRoundedSize S ∈ class_to_size ∧
      ∀ t ∈ class_to_size, S ≤ t → classRoundedSize S ≤ t := by
  have h2' : S ≤ 32768 := h2
  unfold classRoundedSize
  rw [sizeToClass_eq_leastClass S h1 h2']
  exact ⟨leastClass_le S h2', leastClass_mem S h2', leastClass_min S h2'⟩

/-- Witness for C5 at the concrete size 2100: it is routed to object size
2304, which is at least 2100 and minimal among the table entries. -/
theorem c5_sizeclass_routing_minimal_witness :
    2100 ≤ classRoundedSize 2100 ∧ classRoundedSize 2100 ∈ class_to_size ∧
      ∀ t ∈ class_to_size, 2100 ≤ t → classRoundedSize 2100 ≤ t :=
  c5_sizeclass_routing_minimal 2100 (by decide) (by decide)

/-! #### GC metadata writer: one-word objects (claim C7) -/

/-- C7: for every scannable allocation of exactly one machine word, the
metadata writer performs the write itself (it never delegates), leaves
the object's bitmap field with the boundary bit set and the
pointer-classification bits reading "pointer", and touches no other
field — for every supplied layout descriptor, under the precondition
that the allocator hands the writer a field initialized to boundary-only
(the invariant the debugMalloc recheck at line 198 asserts). -/
theorem c7_one_word_marked_pointer (off size0 : Nat) (typ : Option GoType)
    (bm : Nat → Nat) (h : bm off = bitBoundary) :
    ∃ b2, markallocated off ptrSize size0 typ bm = MarkResult.written b2 ∧
      b2 off &&& bitBoundary = bitBoundary ∧
      (b2 off >>> 2) &&& bitsMask = bitsPointer ∧
      ∀ j, j ≠ off → b2 j = bm j := by
  unfold markallocated
  rw [if_pos rfl]
  refine ⟨_, rfl, ?_, ?_, ?_⟩
  · simp only [if_pos rfl, h]
    decide
  · simp only [if_pos rfl, h]
    decide
  · intro j hj
    simp [hj]

/-- Witness for C7 at field offset 4, a boundary-only bitmap, and a
gc-program layout descriptor (which larger objects would delegate on):
the field still reads pointer-with-boundary. -/
theorem c7_one_word_marked_pointer_witness :
    ∃ b2, markallocated 4 ptrSize 8
        (some ⟨24, kindGCProg, 5, 7, [68]⟩) (fun _ => 1) =
          MarkResult.written b2 ∧
      b2 4 &&& bitBoundary = bitBoundary ∧
      (b2 4 >>> 2) &&& bitsMask = bitsPointer ∧
      ∀ j, j ≠ 4 → b2 j = (fun _ : Nat => 1) j :=
  c7_one_word_marked_pointer 4 8 (some ⟨24, kindGCProg, 5, 7, [68]⟩)
    (fun _ => 1) rfl

/-! #### gomallocgc: the reentrancy guard (claim C9) -/

theorem popFreelist_events (env : AEnv) (st : MState) (sc : Nat) :
    (popFreelist env st sc).2.2 = [AEv.cacheTouch] ∨
    (popFreelist env st sc).2.2 = [AEv.refillCall, AEv.cacheTouch] := by
  unfold popFreelist
  cases st.mcache.freelists sc
  · exact Or.inr rfl
  · exact Or.inl rfl

theorem tinySlowPath_events (env : AEnv) (st : MState) (size0 : Nat) :
    (tinySlowPath env st size0).2.2 = (popFreelist env st tinySizeClass).2.2 :=
  rfl

theorem markStep_events (env : AEnv) (x size size0 : Nat)
    (typ : Option GoType) (flags : Nat) (st : MState) :
    (markStep env x size size0 typ flags st).2 = [] ∨
    (markStep env x size size0 typ flags st).2 = [AEv.bitmapWrite] ∨
    (markStep env x size size0 typ flags st).2 = [AEv.unrollInPlace] := by
  unfold markStep
  split
  · exact Or.inl rfl
  · split
    · exact Or.inr (Or.inl rfl)
    · exact Or.inr (Or.inr rfl)

theorem mallocEpilogue_spec (env : AEnv) (x size : Nat) (st : MState)
    (tr : List AEv) :
    ∃ st2 suffix, mallocEpilogue env x size st tr =
        .ok (x, st2, tr ++ AEv.flagClear :: suffix) ∧
      st2.mallocing = 0 ∧ AEv.bitmapWrite ∉ suffix := by
  unfold mallocEpilogue
  dsimp only
  split_ifs <;> exact ⟨_, _, rfl, rfl, by simp⟩

theorem dropWhile_flagClear (mid suffix : List AEv)
    (h : AEv.flagClear ∉ mid) :
    ((mid ++ AEv.flagClear :: suffix).dropWhile
      (fun e => e != AEv.flagClear)) = AEv.flagClear :: suffix := by
  induction mid with
  | nil => rfl
  | cons a t ih =>
      simp only [List.mem_cons, not_or] at h
      have ha : (a != AEv.flagClear) = true := by
        cases a <;> first | rfl | exact absurd rfl h.1
      simp only [List.cons_append, List.dropWhile_cons, ha, if_true]
      exact ih h.2

theorem popFreelist_mem_flagClear (env : AEnv) (st : MState) (sc : Nat) :
    (AEv.flagClear ∈ (popFreelist env st sc).2.2) = False := by
  rcases popFreelist_events env st sc with h | h <;> rw [h] <;> simp

theorem markStep_mem_flagClear (env : AEnv) (x size size0 : Nat)
    (typ : Option GoType) (flags : Nat) (st : MState) :
    (AEv.flagClear ∈ (markStep env x size size0 typ flags st).2) = False := by
  rcases markStep_events env x size size0 typ flags st with h | h | h <;>
    rw [h] <;> simp

/-- C9: every allocation call with size > 0 that begins while the
calling thread's busy flag (mp.mallocing) is already set fails with the
fatal "malloc/free - deadlock" abort; and every successful call sets the
flag before anything else (the trace begins with flagSet, so no cache or
bitmap state is touched before it), clears it on every successful exit
(the final state has mallocing = 0 and flagClear is in the trace), and
performs all GC-bitmap writes strictly before the flag is cleared — so
GC metadata writing always runs with reentrant allocation disabled. -/
theorem c9_reentrancy_guard :
    (∀ (env : AEnv) (size0 : Nat) (typ : Option GoType) (flags : Nat)
        (st : MState), size0 ≠ 0 → st.mallocing ≠ 0 →
      gomallocgc env size0 typ flags st = .error "malloc/free - deadlock") ∧
    (∀ (env : AEnv) (size0 : Nat) (typ : Option GoType) (flags : Nat)
        (st : MState) (x : Nat) (st2 : MState) (tr : List AEv),
      size0 ≠ 0 → st.mallocing = 0 →
      gomallocgc env size0 typ flags st = .ok (x, st2, tr) →
      st2.mallocing = 0 ∧ tr.head? = some AEv.flagSet ∧
        AEv.flagClear ∈ tr ∧
        AEv.bitmapWrite ∉ tr.dropWhile (fun e => e != AEv.flagClear)) := by
  constructor
  · intro env size0 typ flags st h0 hm
    unfold gomallocgc
    rw [if_neg h0, if_pos hm]
  · intro env size0 typ flags st x st2 tr h0 hm hok
    unfold gomallocgc at hok
    rw [if_neg h0, if_neg (by simp [hm])] at hok
    dsimp only at hok
    split_ifs at hok with hsmall htiny hfit
    · -- tiny fast path: early return with a concrete trace
      rw [Except.ok.injEq, Prod.mk.injEq, Prod.mk.injEq] at hok
      obtain ⟨h2, h3, h4⟩ := hok
      subst h2
      subst h3
      subst h4
      refine ⟨rfl, rfl, by simp, ?_⟩
      show AEv.bitmapWrite ∉ [AEv.flagClear]
      simp
    · -- tiny slow path
      obtain ⟨st2e, suffix, heq, hm0, hbw⟩ := mallocEpilogue_spec env _ _ _ _
      rw [heq, Except.ok.injEq, Prod.mk.injEq, Prod.mk.injEq] at hok
      obtain ⟨h2, h3, h4⟩ := hok
      subst h2
      subst h3
      subst h4
      refine ⟨hm0, by simp, by simp, ?_⟩
      rw [dropWhile_flagClear]
      · simp [hbw]
      · simp [tinySlowPath_events, popFreelist_mem_flagClear]
    · -- small size-class path
      obtain ⟨st2e, suffix, heq, hm0, hbw⟩ := mallocEpilogue_spec env _ _ _ _
      rw [heq, Except.ok.injEq, Prod.mk.injEq, Prod.mk.injEq] at hok
      obtain ⟨h2, h3, h4⟩ := hok
      subst h2
      subst h3
      subst h4
      refine ⟨hm0, by simp, by simp, ?_⟩
      rw [dropWhile_flagClear]
      · simp [hbw]
      · simp [popFreelist_mem_flagClear, markStep_mem_flagClear]
    · -- large path
      obtain ⟨st2e, suffix, heq, hm0, hbw⟩ := mallocEpilogue_spec env _ _ _ _
      rw [heq, Except.ok.injEq, Prod.mk.injEq, Prod.mk.injEq] at hok
      obtain ⟨h2, h3, h4⟩ := hok
      subst h2
      subst h3
      subst h4
      refine ⟨hm0, by simp, by simp, ?_⟩
      rw [dropWhile_flagClear]
      · simp [hbw]
      · simp [markStep_mem_flagClear]

/-- Witness for C9: a reentrant 16-byte call aborts fatally; the same
call on a quiescent thread succeeds with the guarded trace shape. -/
theorem c9_reentrancy_guard_witness :
    gomallocgc sampleAEnv 16 none 0 busyMState =
      .error "malloc/free - deadlock" ∧
    ∃ x st2 tr, gomallocgc sampleAEnv 16 none 0 freeMState =
        .ok (x, st2, tr) ∧ st2.mallocing = 0 ∧
      tr.head? = some AEv.flagSet ∧ AEv.flagClear ∈ tr ∧
      AEv.bitmapWrite ∉ tr.dropWhile (fun e => e != AEv.flagClear) := by
  constructor
  · exact c9_reentrancy_guard.1 sampleAEnv 16 none 0 busyMState
      (by decide) (by decide)
  · exact ⟨_, _, _, rfl, c9_reentrancy_guard.2 sampleAEnv 16 none 0
      freeMState _ _ _ (by decide) (by decide) rfl⟩

/-! #### gogc: negative configuration, step order, early escapes
(claims C1, C3, C10) -/

/-- C1 is refuted as stated: with collection enabled, no locks held, no
panic in progress, the threshold exceeded, and the GC-percentage
configuration resolved to the negative value -1, an explicit forced call
(GC(), i.e. gogc with force = 2) produces no events at all — it neither
goes through the semaphore and world-stop sequence nor invokes the
collection-cycle primitive, because the gcpercent < 0 test at malloc.go
line 411 runs before the force check at line 417. -/
theorem c1_forced_gc_negative_percent_counterexample :
    (gogc id 2 gcDisabledState).1 = [] ∧
    (gogc id 2 gcDisabledState).1.contains GCEv.semacquire = false ∧
    (gogc id 2 gcDisabledState).1.contains (GCEv.gc_m true) = false := by
  decide

/-- C1 (amended): when automatic triggering is disabled by a negative
GC-percentage configuration, an explicit forced collection call does not
proceed either: gogc returns before acquiring the semaphore for every
force value, so the negative setting permanently disables forced as well
as automatic collection; the only state change is the one-time lazy
resolution of the configuration sentinel. -/
theorem c1_negative_percent_disables_all (cycleEffect : GCState → GCState)
    (force : Int) (st : GCState) (h1 : ¬st.enablegc = 0) (h2 : st.locks = 0)
    (h3 : st.panicking = 0) (h4 : resolvedGCPercent st < 0) :
    gogc cycleEffect force st =
      ([], { st with gcpercent := some (resolvedGCPercent st) }) := by
  unfold gogc
  rw [if_neg h1, if_neg (by omega), if_neg (by simp [h3])]
  dsimp only
  rw [if_pos (by simpa [resolvedGCPercent] using h4)]

/-- Witness for the amended C1 at the concrete disabled state. -/
theorem c1_negative_percent_disables_all_witness :
    gogc id 2 gcDisabledState =
      ([], { gcDisabledState with
              gcpercent := some (resolvedGCPercent gcDisabledState) }) :=
  c1_negative_percent_disables_all id 2 gcDisabledState (by decide)
    (by decide) (by decide) (by decide)

/-- C3 is refuted as stated on the order of the last two steps: in a
winning forced run the trace is semacquire, stoptheworld, clearpools,
gc_m eager, semrelease, starttheworld — the semaphore is released
(malloc.go line 457) strictly before the execution contexts are
restarted (line 458), while the claim requires the restart to come
first. -/
theorem c3_release_before_restart_counterexample :
    (gogc id 2 gcTriggeredState).1 =
      [GCEv.semacquire, GCEv.stoptheworld, GCEv.clearpools, GCEv.gc_m true,
        GCEv.semrelease, GCEv.starttheworld] ∧
    (gogc id 2 gcTriggeredState).1.indexOf GCEv.semrelease <
      (gogc id 2 gcTriggeredState).1.indexOf GCEv.starttheworld := by decide

/-- C3 (amended): for every run of the GC controller that wins the
collection-in-progress gate and proceeds to collect (with the default
tracing configuration gctrace <= 1), the steps occur in exactly this
order: acquire the semaphore, stop all execution contexts, clear the
per-context transient pools, invoke the collection-cycle primitive —
with the eager flag set iff the call was forced with force >= 2 — then
release the semaphore, and only after that restart all execution
contexts and return to idle. -/
theorem c3_winner_step_order (cycleEffect : GCState → GCState)
    (force : Int) (st : GCState) (h1 : ¬st.enablegc = 0) (h2 : st.locks = 0)
    (h3 : st.panicking = 0) (h4 : 0 ≤ resolvedGCPercent st)
    (h5 : st.gctrace ≤ 1)
    (h6 : ¬(force = 0 ∧ st.heap_alloc < st.next_gc)) :
    (gogc cycleEffect force st).1 =
      [GCEv.semacquire, GCEv.stoptheworld, GCEv.clearpools,
        GCEv.gc_m (decide (force ≥ 2)), GCEv.semrelease,
        GCEv.starttheworld] := by
  unfold gogc
  rw [if_neg h1, if_neg (by omega), if_neg (by simp [h3])]
  dsimp only
  rw [if_neg (by
      simp only [resolvedGCPercent, Option.getD_some] at h4 ⊢
      omega),
    if_neg (by simpa using h6)]
  have hn : (if st.gctrace > 1 then 2 else 1) = 1 := by
    rw [if_neg (by omega)]
  simp [hn]

/-- Witness for the amended C3 at the concrete triggered state, forced
eagerly (force = 2). -/
theorem c3_winner_step_order_witness :
    (gogc id 2 gcTriggeredState).1 =
      [GCEv.semacquire, GCEv.stoptheworld, GCEv.clearpools,
        GCEv.gc_m (decide ((2 : Int) ≥ 2)), GCEv.semrelease,
        GCEv.starttheworld] :=
  c3_winner_step_order id 2 gcTriggeredState (by decide) (by decide)
    (by decide) (by decide) (by decide) (by decide)

/-- C10: a collection request — including a forced one via GC() —
returns with no events (no world stop, no collection-cycle invocation)
and with the state unchanged whenever the calling thread holds more than
one lock or a panic is in progress.  In fact the source's test
(mp.locks > 1, line 395) runs after acquirem incremented the count, so
even a single lock held at entry takes this escape; the claim's
condition is contained in it. -/
theorem c10_lock_or_panic_escape (cycleEffect : GCState → GCState)
    (force : Int) (st : GCState) (h : 1 < st.locks ∨ st.panicking ≠ 0) :
    gogc cycleEffect force st = ([], st) := by
  rcases h with h | h <;>
    (unfold gogc; split_ifs <;> first | rfl | omega)

/-- Witness for C10: a forced GC() call from a thread holding two locks
returns immediately with nothing done. -/
theorem c10_lock_or_panic_escape_witness :
    gogc id 2 gcLockedState = ([], gcLockedState) :=
  c10_lock_or_panic_escape id 2 gcLockedState (Or.inl (by decide))

/-! #### The GC controller race (claim C2) -/

theorem updatePC_same {N : Nat} (pcs : Fin N → TPC) (i : Fin N) (v : TPC) :
    updatePC pcs i v i = v := by
  simp [updatePC]

theorem updatePC_noteq {N : Nat} {pcs : Fin N → TPC} {i j : Fin N}
    {v : TPC} (h : j ≠ i) : updatePC pcs i v j = pcs j := by
  simp [updatePC, h]

theorem exists_update_iff {N : Nat} (pcs : Fin N → TPC) (i : Fin N)
    (v : TPC) (P : TPC → Prop) (hv : ¬P v) (hold : ¬P (pcs i)) :
    (∃ j, P (updatePC pcs i v j)) ↔ ∃ j, P (pcs j) := by
  constructor
  · rintro ⟨j, hj⟩
    rcases eq_or_ne j i with rfl | hne
    · rw [updatePC_same] at hj
      exact absurd hj hv
    · rw [updatePC_noteq hne] at hj
      exact ⟨j, hj⟩
  · rintro ⟨j, hj⟩
    rcases eq_or_ne j i with rfl | hne
    · exact absurd hj hold
    · exact ⟨j, by rw [updatePC_noteq hne]; exact hj⟩

theorem confInv_init (N : Nat) : ConfInv (initConf N) := by
  unfold ConfInv initConf HoldsSema PostCycle Committed
  simp

theorem confInv_step {N : Nat} {c c2 : Conf N} (h : Step c c2)
    (hI : ConfInv c) : ConfInv c2 := by
  obtain ⟨i, hi⟩ := h
  obtain ⟨⟨hA1, hA2⟩, hB, hC, hD⟩ := hI
  unfold stepThread at hi
  cases hpc : c.pcs i <;> rw [hpc] at hi <;> dsimp only at hi
  case acquiring =>
    split at hi
    case isTrue hs => exact absurd hi (by simp)
    case isFalse hs =>
      obtain rfl : _ = c2 := Option.some.inj hi
      unfold ConfInv
      dsimp only
      have hnone : ∀ j, ¬HoldsSema (c.pcs j) := by
        intro j hj
        exact hs (hA1.mpr ⟨j, hj⟩)
      refine ⟨⟨?_, ?_⟩, ?_, ?_, ?_⟩
      · exact iff_of_true rfl
          ⟨i, by rw [updatePC_same]; exact Or.inl rfl⟩
      · intro j k hj hk
        have hji : j = i := by
          by_contra hne
          rw [updatePC_noteq hne] at hj
          exact hnone j hj
        have hki : k = i := by
          by_contra hne
          rw [updatePC_noteq hne] at hk
          exact hnone k hk
        rw [hji, hki]
      · exact hB.trans (exists_update_iff _ _ _ PostCycle
          (by simp [PostCycle]) (by rw [hpc]; simp [PostCycle])).symm
      · intro j k hj hk
        have hred : ∀ m, Committed (updatePC c.pcs i .rechecking m) →
            Committed (c.pcs m) := by
          intro m hm
          rcases eq_or_ne m i with rfl | hne
          · rw [updatePC_same] at hm
            simp [Committed] at hm
          · rwa [updatePC_noteq hne] at hm
        exact hC j k (hred j hj) (hred k hk)
      · rintro ⟨j, hj⟩
        rcases eq_or_ne j i with rfl | hne
        · rw [updatePC_same] at hj
          simp at hj
        · rw [updatePC_noteq hne] at hj
          exact hD ⟨j, hj⟩
  case rechecking =>
    have hsema : c.semaHeld = true := hA1.mpr ⟨i, by rw [hpc]; exact Or.inl rfl⟩
    split at hi
    case isTrue hg =>
      obtain rfl : _ = c2 := Option.some.inj hi
      unfold ConfInv
      dsimp only
      have honly : ∀ m, m ≠ i → ¬Committed (c.pcs m) := by
        intro m hmi hm
        rcases hm with hm | hm | hm
        · exact hmi (hA2 m i (Or.inr (Or.inl hm)) (by rw [hpc]; exact Or.inl rfl))
        · exact hmi (hA2 m i (Or.inr (Or.inr hm)) (by rw [hpc]; exact Or.inl rfl))
        · have hf := hB.mpr ⟨m, Or.inr hm⟩
          rw [hg] at hf
          simp at hf
      refine ⟨⟨?_, ?_⟩, ?_, ?_, ?_⟩
      · exact iff_of_true hsema
          ⟨i, by rw [updatePC_same]; exact Or.inr (Or.inl rfl)⟩
      · intro j k hj hk
        have hred : ∀ m, HoldsSema (updatePC c.pcs i .collecting m) →
            HoldsSema (c.pcs m) := by
          intro m hm
          rcases eq_or_ne m i with rfl | hne
          · rw [hpc]; exact Or.inl rfl
          · rwa [updatePC_noteq hne] at hm
        exact hA2 j k (hred j hj) (hred k hk)
      · exact hB.trans (exists_update_iff _ _ _ PostCycle
          (by simp [PostCycle]) (by rw [hpc]; simp [PostCycle])).symm
      · intro j k hj hk
        have hji : j = i := by
          by_contra hne
          rw [updatePC_noteq hne] at hj
          exact honly j hne hj
        have hki : k = i := by
          by_contra hne
          rw [updatePC_noteq hne] at hk
          exact honly k hne hk
        rw [hji, hki]
      · rintro ⟨j, hj⟩
        rcases eq_or_ne j i with rfl | hne
        · rw [updatePC_same] at hj
          simp at hj
        · rw [updatePC_noteq hne] at hj
          exact hD ⟨j, hj⟩
    case isFalse hg =>
      obtain rfl : _ = c2 := Option.some.inj hi
      unfold ConfInv
      dsimp only
      have hnoh : ∀ m, ¬HoldsSema (updatePC c.pcs i
          (TPC.finished false) m) := by
        intro m hm
        rcases eq_or_ne m i with rfl | hne
        · rw [updatePC_same] at hm
          simp [HoldsSema] at hm
        · rw [updatePC_noteq hne] at hm
          exact hne (hA2 m i hm (by rw [hpc]; exact Or.inl rfl))
      have hgf : c.needgc = false := by
        cases hgg : c.needgc
        · rfl
        · exact absurd hgg hg
      refine ⟨⟨?_, ?_⟩, ?_, ?_, ?_⟩
      · constructor
        · intro h
          exact absurd h (by simp)
        · rintro ⟨m, hm⟩
          exact absurd hm (hnoh m)
      · intro j k hj hk
        exact absurd hj (hnoh j)
      · refine iff_of_true hgf ?_
        obtain ⟨j, hj⟩ := hB.mp hgf
        have hji : j ≠ i := by
          rintro rfl
          rw [hpc] at hj
          simp [PostCycle] at hj
        exact ⟨j, by rw [updatePC_noteq hji]; exact hj⟩
      · intro j k hj hk
        have hred : ∀ m, Committed (updatePC c.pcs i
            (TPC.finished false) m) → Committed (c.pcs m) := by
          intro m hm
          rcases eq_or_ne m i with rfl | hne
          · rw [updatePC_same] at hm
            simp [Committed] at hm
          · rwa [updatePC_noteq hne] at hm
        exact hC j k (hred j hj) (hred k hk)
      · intro _
        exact hgf
  case collecting =>
    obtain rfl : _ = c2 := Option.some.inj hi
    unfold ConfInv
    dsimp only
    have hsema : c.semaHeld = true :=
      hA1.mpr ⟨i, by rw [hpc]; exact Or.inr (Or.inl rfl)⟩
    refine ⟨⟨?_, ?_⟩, ?_, ?_, ?_⟩
    · exact iff_of_true hsema
        ⟨i, by rw [updatePC_same]; exact Or.inr (Or.inr rfl)⟩
    · intro j k hj hk
      have hred : ∀ m, HoldsSema (updatePC c.pcs i .releasing m) →
          HoldsSema (c.pcs m) := by
        intro m hm
        rcases eq_or_ne m i with rfl | hne
        · rw [hpc]; exact Or.inr (Or.inl rfl)
        · rwa [updatePC_noteq hne] at hm
      exact hA2 j k (hred j hj) (hred k hk)
    · exact iff_of_true rfl
        ⟨i, by rw [updatePC_same]; exact Or.inl rfl⟩
    · intro j k hj hk
      have hred : ∀ m, Committed (updatePC c.pcs i .releasing m) →
          Committed (c.pcs m) := by
        intro m hm
        rcases eq_or_ne m i with rfl | hne
        · rw [hpc]; exact Or.inl rfl
        · rwa [updatePC_noteq hne] at hm
      exact hC j k (hred j hj) (hred k hk)
    · intro _
      rfl
  case releasing =>
    obtain rfl : _ = c2 := Option.some.inj hi
    unfold ConfInv
    dsimp only
    have hng : c.needgc = false := hB.mpr ⟨i, Or.inl hpc⟩
    have hnoh : ∀ m, ¬HoldsSema (updatePC c.pcs i
        (TPC.finished true) m) := by
      intro m hm
      rcases eq_or_ne m i with rfl | hne
      · rw [updatePC_same] at hm
        simp [HoldsSema] at hm
      · rw [updatePC_noteq hne] at hm
        exact hne (hA2 m i hm (by rw [hpc]; exact Or.inr (Or.inr rfl)))
    refine ⟨⟨?_, ?_⟩, ?_, ?_, ?_⟩
    · constructor
      · intro h
        exact absurd h (by simp)
      · rintro ⟨m, hm⟩
        exact absurd hm (hnoh m)
    · intro j k hj hk
      exact absurd hj (hnoh j)
    · exact iff_of_true hng
        ⟨i, by rw [updatePC_same]; exact Or.inr rfl⟩
    · intro j k hj hk
      have hred : ∀ m, Committed (updatePC c.pcs i
          (TPC.finished true) m) → Committed (c.pcs m) := by
        intro m hm
        rcases eq_or_ne m i with rfl | hne
        · rw [hpc]; exact Or.inr (Or.inl rfl)
        · rwa [updatePC_noteq hne] at hm
      exact hC j k (hred j hj) (hred k hk)
    · intro _
      exact hng
  case finished b => exact absurd hi (by simp)

theorem reachable_confInv {N : Nat} {c : Conf N} (h : Reachable c) :
    ConfInv c := by
  unfold Reachable at h
  induction h with
  | refl => exact confInv_init N
  | tail _ hstep ih => exact confInv_step hstep ih

/-- C2's non-blocking clause is refuted: in the reachable two-thread
configuration blockedConf — thread 0 has won worldsema and is at the
recheck, thread 1 is inside semacquire (malloc.go line 415) — the losing
thread 1 has no enabled step at all: the semaphore acquisition blocks,
and the loser waits instead of returning immediately (consistent with
the source's own comment that losers exit "when gc is done"). -/
theorem c2_losers_block_counterexample :
    Reachable blockedConf ∧ blockedConf.pcs 1 = TPC.acquiring ∧
    stepThread blockedConf 1 = none :=
  ⟨Relation.ReflTransGen.single ⟨0, rfl⟩, rfl, rfl⟩

/-- C2 (amended): when N threads concurrently observe
liveBytes >= threshold and call the GC controller with force = 0,
exactly one of them executes the collection-cycle primitive: in every
complete (terminal) reachable interleaving there is one thread that
finished having run the cycle and every other thread finished without
invoking it — but the losing threads wait on the blocking worldsema
acquisition until the winner's release, rather than returning without
waiting. -/
theorem c2_exactly_one_collector {N : Nat} (hN : 0 < N) (c : Conf N)
    (hr : Reachable c) (ht : Terminal c) :
    ∃ i, c.pcs i = TPC.finished true ∧
      ∀ j, j ≠ i → c.pcs j = TPC.finished false := by
  obtain ⟨⟨hA1, hA2⟩, hB, hC, hD⟩ := reachable_confInv hr
  by_cases hw : ∃ i, c.pcs i = TPC.finished true
  · obtain ⟨i, hi⟩ := hw
    refine ⟨i, hi, ?_⟩
    intro j hj
    obtain ⟨b, hb⟩ := ht j
    cases b
    · exact hb
    · exact absurd (hC j i (Or.inr (Or.inr hb)) (Or.inr (Or.inr hi))) hj
  · exfalso
    have hbf : c.pcs ⟨0, hN⟩ = TPC.finished false := by
      obtain ⟨b, hb⟩ := ht ⟨0, hN⟩
      cases b
      · exact hb
      · exact absurd ⟨⟨0, hN⟩, hb⟩ hw
    obtain ⟨j, hj⟩ := hB.mp (hD ⟨⟨0, hN⟩, hbf⟩)
    rcases hj with hj | hj
    · obtain ⟨b, hb⟩ := ht j
      rw [hb] at hj
      simp at hj
    · exact hw ⟨j, hj⟩

/-- Witness for the amended C2: a complete two-thread race in which
thread 0 acquires, collects and releases, then thread 1 acquires, sees
the reset condition and leaves; the theorem yields the winner. -/
theorem c2_exactly_one_collector_witness :
    ∃ i, raceC6.pcs i = TPC.finished true ∧
      ∀ j, j ≠ i → raceC6.pcs j = TPC.finished false :=
  c2_exactly_one_collector (by decide) raceC6
    ((((((Relation.ReflTransGen.refl.tail
        (⟨0, rfl⟩ : Step (initConf 2) raceC1)).tail
        (⟨0, rfl⟩ : Step raceC1 raceC2)).tail
        (⟨0, rfl⟩ : Step raceC2 raceC3)).tail
        (⟨0, rfl⟩ : Step raceC3 raceC4)).tail
        (⟨1, rfl⟩ : Step raceC4 raceC5)).tail
        (⟨1, rfl⟩ : Step raceC5 raceC6))
    (fun i => by fin_cases i <;> [exact ⟨true, rfl⟩; exact ⟨false, rfl⟩])

end Malloc
